import Mathlib

/-!
Shallow embedding of the select-target layout rule (Rule L036) of the
sqlfluff linter (`src/sqlfluff/core/rules/std/L036.py`), together with
proofs about its landmark scanner (`_get_indexes`) and its fix decision
logic (`_eval_single_select_target_element`,
`_eval_multiple_select_target_elements`, dispatched by `_eval`).

Parse-tree nodes are modelled as an inductive type carrying the kind tag,
the optional keyword name, a character-offset position marker, the raw
text of a leaf, and the ordered child segments.  Absent landmark indices
are encoded as `-1`, exactly as in the Python source.  Python list
indexing (which can raise `IndexError`) is modelled in the `Except Unit`
monad, so the rule evaluation functions return
`Except Unit (Option LintResult)`: `Except.error ()` models a raised
exception, `Except.ok none` models the Python `None` (no issue), and
`Except.ok (some r)` models a returned `LintResult`.
-/

namespace L036

/-- Parse-tree node: kind tag, name (keyword text, empty when irrelevant),
source position marker (character offset), raw text of a leaf, and the
ordered child segments. -/
inductive Node : Type where
  | mk (kind : String) (name : String) (pos : Nat) (rawText : String)
      (segments : List Node)

mutual

def Node.decEq : (a b : Node) → Decidable (a = b)
  | .mk k1 n1 p1 r1 s1, .mk k2 n2 p2 r2 s2 =>
    if hk : k1 = k2 then
      if hn : n1 = n2 then
        if hp : p1 = p2 then
          if hr : r1 = r2 then
            match Node.decEqList s1 s2 with
            | isTrue hs => isTrue (by rw [hk, hn, hp, hr, hs])
            | isFalse hs => isFalse (by intro h; injection h; contradiction)
          else isFalse (by intro h; injection h; contradiction)
        else isFalse (by intro h; injection h; contradiction)
      else isFalse (by intro h; injection h; contradiction)
    else isFalse (by intro h; injection h; contradiction)

def Node.decEqList : (a b : List Node) → Decidable (a = b)
  | [], [] => isTrue rfl
  | [], _ :: _ => isFalse (by intro h; injection h)
  | _ :: _, [] => isFalse (by intro h; injection h)
  | a :: as, b :: bs =>
    match Node.decEq a b, Node.decEqList as bs with
    | isTrue h1, isTrue h2 => isTrue (by rw [h1, h2])
    | isFalse h1, _ => isFalse (by intro h; injection h; contradiction)
    | _, isFalse h2 => isFalse (by intro h; injection h; contradiction)

end

instance : DecidableEq Node := Node.decEq

def Node.kind : Node → String
  | .mk k _ _ _ _ => k

def Node.name : Node → String
  | .mk _ n _ _ _ => n

def Node.pos : Node → Nat
  | .mk _ _ p _ _ => p

def Node.rawText : Node → String
  | .mk _ _ _ r _ => r

def Node.segments : Node → List Node
  | .mk _ _ _ _ cs => cs

/-- Replace the child list of a node, keeping every other field.  Used to
model the fix-application engine rewriting a clause's children. -/
def Node.withSegments : Node → List Node → Node
  | .mk k n p r _, cs => .mk k n p r cs

mutual

/-- Raw source text of a node: a leaf carries its own text, an inner node
concatenates the raw text of its children (as `BaseSegment.raw`). -/
def Node.raw : Node → String
  | .mk _ _ _ rawText [] => rawText
  | .mk _ _ _ _ (c :: cs) => Node.rawJoin (c :: cs)

def Node.rawJoin : List Node → String
  | [] => ""
  | c :: cs => Node.raw c ++ Node.rawJoin cs

end

/-- Position marker advanced over a string (`pos_marker.advance_by(raw)`):
the character offset moves forward by the length of the string. -/
def advance_by (p : Nat) (s : String) : Nat := p + s.length

/-- The `EvalResult` named tuple of the source: the landmark summary
produced by `_get_indexes`.  Absent indices are `-1`. -/
structure EvalResult where
  cnt_select_targets : Nat
  select_idx : Int
  first_new_line_idx : Int
  first_select_target_idx : Int
  first_whitespace_idx : Int
  select_targets : List Node
deriving DecidableEq

/-- One iteration of the scanning loop of `_get_indexes`, for the child
`seg` at position `fname_idx`, updating the running state `st`.  The four
`if` blocks appear in the source order. -/
def scanStep (fname_idx : Nat) (seg : Node) (st : EvalResult) : EvalResult :=
  let st1 :=
    if seg.kind = "select_target_element" then
      { st with
        select_targets := st.select_targets ++ [seg],
        cnt_select_targets := st.cnt_select_targets + 1,
        first_select_target_idx :=
          if st.first_select_target_idx = -1 then (fname_idx : Int)
          else st.first_select_target_idx }
    else st
  let st2 :=
    if seg.kind = "keyword" ∧ seg.name = "SELECT" ∧ st1.select_idx = -1 then
      { st1 with select_idx := (fname_idx : Int) }
    else st1
  let st3 :=
    if seg.kind = "newline" ∧ st2.first_new_line_idx = -1 then
      { st2 with first_new_line_idx := (fname_idx : Int) }
    else st2
  if seg.kind = "whitespace" ∧ st3.first_new_line_idx ≠ -1 ∧
      st3.first_whitespace_idx = -1 then
    { st3 with first_whitespace_idx := (fname_idx : Int) }
  else st3

/-- The scanning loop of `_get_indexes` over the remaining children,
starting at enumeration index `i` with running state `st`. -/
def scanFrom (st : EvalResult) (i : Nat) : List Node → EvalResult
  | [] => st
  | seg :: rest => scanFrom (scanStep i seg st) (i + 1) rest

/-- The initial scanner state: zero targets, all indices `-1`, no
collected target list. -/
def initState : EvalResult := ⟨0, -1, -1, -1, -1, []⟩

/-- `Rule_L036._get_indexes`: single forward pass over the clause's direct
children producing the landmark summary. -/
def _get_indexes (segment : Node) : EvalResult :=
  scanFrom initState 0 segment.segments

/-- A `LintFix`: either `LintFix("create", anchor, edit)` (insert `edit`
before `anchor`) or `LintFix("delete", anchor)`. -/
inductive LintFix where
  | create (anchor : Node) (edit : Node)
  | delete (anchor : Node)
deriving DecidableEq

/-- A `LintResult`: the anchor segment and the proposed fixes. -/
structure LintResult where
  anchor : Node
  fixes : List LintFix
deriving DecidableEq

/-- `BaseCrawler.make_newline`: a fresh newline segment with raw text
`"\n"` at the given position marker. -/
def make_newline (pos_marker : Nat) : Node :=
  .mk "newline" "newline" pos_marker "\n" []

/-- Python list indexing `l[i]`: in-range non-negative indices and
in-range negative indices (counting from the end) succeed, anything else
raises `IndexError` (modelled as `Except.error ()`). -/
def pyGet (l : List Node) (i : Int) : Except Unit Node :=
  if i < 0 then
    let j := (l.length : Int) + i
    if h : 0 ≤ j ∧ j.toNat < l.length then .ok (l.get ⟨j.toNat, h.2⟩)
    else .error ()
  else if h : i.toNat < l.length then .ok (l.get ⟨i.toNat, h⟩)
  else .error ()

/-- `Rule_L036._eval_multiple_select_target_elements`: if no newline was
found among the clause's children, propose inserting a fresh newline
(positioned at the clause's position marker advanced by the clause's raw
text) before the first select target; otherwise return `None`. -/
def _eval_multiple_select_target_elements (eval_result : EvalResult)
    (segment : Node) : Except Unit (Option LintResult) :=
  if eval_result.first_new_line_idx = -1 then
    match pyGet eval_result.select_targets 0 with
    | .error e => .error e
    | .ok t =>
        let ins := make_newline (advance_by segment.pos segment.raw)
        .ok (some ⟨segment, [LintFix.create t ins]⟩)
  else .ok none

/-- The wildcard detection loop at the start of
`_eval_single_select_target_element`: scan the clause's children, and for
every `select_target_element` child scan its direct children for a
`wildcard_expression`. -/
def is_wildcard_scan (select_clause : Node) : Bool :=
  select_clause.segments.any fun seg =>
    seg.kind == "select_target_element" &&
      seg.segments.any fun sub => sub.kind == "wildcard_expression"

/-- `Rule_L036._eval_single_select_target_element`: a wildcard-only
target is exempt; otherwise, if
`select_idx < first_new_line_idx < first_select_target_idx`, propose
deleting the newline segment at `first_new_line_idx`. -/
def _eval_single_select_target_element (eval_result : EvalResult)
    (select_clause : Node) : Except Unit (Option LintResult) :=
  if is_wildcard_scan select_clause then .ok none
  else if eval_result.select_idx < eval_result.first_new_line_idx ∧
      eval_result.first_new_line_idx < eval_result.first_select_target_idx then
    match pyGet select_clause.segments eval_result.first_new_line_idx with
    | .error e => .error e
    | .ok n => .ok (some ⟨select_clause, [LintFix.delete n]⟩)
  else .ok none

/-- The dispatch on `cnt_select_targets` inside `Rule_L036._eval`: one
target goes to the single-target path, more than one to the multi-target
path, zero falls through to `None`. -/
def dispatchEval (eval_result : EvalResult) (segment : Node) :
    Except Unit (Option LintResult) :=
  if eval_result.cnt_select_targets = 1 then
    _eval_single_select_target_element eval_result segment
  else if eval_result.cnt_select_targets > 1 then
    _eval_multiple_select_target_elements eval_result segment
  else .ok none

/-- `Rule_L036._eval`: only `select_clause` segments are inspected; the
landmark summary is computed and the decision dispatched on the number of
select targets. -/
def _eval (segment : Node) : Except Unit (Option LintResult) :=
  if segment.kind = "select_clause" then
    dispatchEval (_get_indexes segment) segment
  else .ok none

/-! Spec-side predicates and first-index characterisations used to state
what the landmark scanner computes. -/

/-- The child is a `select_target_element`. -/
def isTargetSeg (n : Node) : Bool := n.kind == "select_target_element"

/-- The child is a `keyword` named `SELECT`. -/
def isSelectKeyword (n : Node) : Bool := n.kind == "keyword" && n.name == "SELECT"

/-- The child is a `newline`. -/
def isNewlineSeg (n : Node) : Bool := n.kind == "newline"

/-- The child is a `whitespace`. -/
def isWhitespaceSeg (n : Node) : Bool := n.kind == "whitespace"

/-- Shift a `-1`-encoded optional index forward by `i` positions (absence
is preserved). -/
def shiftIdx (i : Nat) (x : Int) : Int := if x = -1 then -1 else (i : Int) + x

/-- Index of the first element of the list satisfying `p`, or `-1` when
no element does. -/
def firstIdx (p : Node → Bool) : List Node → Int
  | [] => -1
  | c :: l => if p c then 0 else shiftIdx 1 (firstIdx p l)

/-- Index of the first whitespace element occurring strictly after the
first newline element, or `-1` when there is no such element. -/
def firstWsAfterNl : List Node → Int
  | [] => -1
  | c :: l =>
    if isNewlineSeg c then shiftIdx 1 (firstIdx isWhitespaceSeg l)
    else shiftIdx 1 (firstWsAfterNl l)

/-! Concrete example segments, used by the closed witness and
counterexample theorems below. -/

/-- A `SELECT` keyword leaf. -/
def kwSelect : Node := .mk "keyword" "SELECT" 0 "SELECT" []

/-- A whitespace leaf. -/
def wsSeg : Node := .mk "whitespace" "whitespace" 6 " " []

/-- A newline leaf. -/
def nlSeg : Node := .mk "newline" "newline" 6 "\n" []

/-- A single-column select target `a`. -/
def tgtA : Node :=
  .mk "select_target_element" "" 7 "a" [.mk "column_reference" "" 7 "a" []]

/-- A single-column select target `b`. -/
def tgtB : Node :=
  .mk "select_target_element" "" 10 "b" [.mk "column_reference" "" 10 "b" []]

/-- A wildcard select target `*`. -/
def tgtStar : Node :=
  .mk "select_target_element" "" 7 "*" [.mk "wildcard_expression" "" 7 "*" []]

/-- A select target whose wildcard sits one level deeper, inside a
function expression: `count(*)`. -/
def tgtDeepStar : Node :=
  .mk "select_target_element" "" 7 "count(*)"
    [.mk "function" "" 7 "count(*)" [.mk "wildcard_expression" "" 13 "*" []]]

/-- A comma leaf. -/
def commaSeg : Node := .mk "comma" "comma" 8 "," []

/-- A select clause with the given children. -/
def mkClause (cs : List Node) : Node := .mk "select_clause" "" 0 "" cs

/-- A placeholder node, used as the default of `List.getD`. -/
def emptySeg : Node := .mk "" "" 0 "" []

/-! Basic facts about the predicates and the single scanning step. -/

theorem isTargetSeg_iff {n : Node} :
    isTargetSeg n = true ↔ n.kind = "select_target_element" := by
  simp [isTargetSeg]

theorem isSelectKeyword_iff {n : Node} :
    isSelectKeyword n = true ↔ n.kind = "keyword" ∧ n.name = "SELECT" := by
  simp [isSelectKeyword]

theorem isNewlineSeg_iff {n : Node} :
    isNewlineSeg n = true ↔ n.kind = "newline" := by
  simp [isNewlineSeg]

theorem isWhitespaceSeg_iff {n : Node} :
    isWhitespaceSeg n = true ↔ n.kind = "whitespace" := by
  simp [isWhitespaceSeg]

theorem scanStep_cnt (i : Nat) (c : Node) (st : EvalResult) :
    (scanStep i c st).cnt_select_targets =
      if isTargetSeg c = true then st.cnt_select_targets + 1
      else st.cnt_select_targets := by
  simp only [isTargetSeg_iff]
  simp only [scanStep]
  split_ifs <;> simp_all

theorem scanStep_targets (i : Nat) (c : Node) (st : EvalResult) :
    (scanStep i c st).select_targets =
      if isTargetSeg c = true then st.select_targets ++ [c]
      else st.select_targets := by
  simp only [isTargetSeg_iff]
  simp only [scanStep]
  split_ifs <;> simp_all

theorem scanStep_select_idx (i : Nat) (c : Node) (st : EvalResult) :
    (scanStep i c st).select_idx =
      if isSelectKeyword c = true ∧ st.select_idx = -1 then (i : Int)
      else st.select_idx := by
  simp only [show (isSelectKeyword c = true ∧ st.select_idx = -1) ↔
      (c.kind = "keyword" ∧ c.name = "SELECT" ∧ st.select_idx = -1) by
    rw [isSelectKeyword_iff]; tauto]
  simp only [scanStep]
  split_ifs <;> simp_all

theorem scanStep_fnl (i : Nat) (c : Node) (st : EvalResult) :
    (scanStep i c st).first_new_line_idx =
      if isNewlineSeg c = true ∧ st.first_new_line_idx = -1 then (i : Int)
      else st.first_new_line_idx := by
  simp only [show (isNewlineSeg c = true ∧ st.first_new_line_idx = -1) ↔
      (c.kind = "newline" ∧ st.first_new_line_idx = -1) by
    rw [isNewlineSeg_iff]]
  simp only [scanStep]
  split_ifs <;> simp_all

theorem scanStep_ft (i : Nat) (c : Node) (st : EvalResult) :
    (scanStep i c st).first_select_target_idx =
      if isTargetSeg c = true ∧ st.first_select_target_idx = -1 then (i : Int)
      else st.first_select_target_idx := by
  simp only [show (isTargetSeg c = true ∧ st.first_select_target_idx = -1) ↔
      (c.kind = "select_target_element" ∧ st.first_select_target_idx = -1) by
    rw [isTargetSeg_iff]]
  simp only [scanStep]
  split_ifs <;> simp_all

theorem scanStep_fwi (i : Nat) (c : Node) (st : EvalResult) :
    (scanStep i c st).first_whitespace_idx =
      if isWhitespaceSeg c = true ∧ st.first_new_line_idx ≠ -1 ∧
          st.first_whitespace_idx = -1 then (i : Int)
      else st.first_whitespace_idx := by
  simp only [show (isWhitespaceSeg c = true ∧ st.first_new_line_idx ≠ -1 ∧
        st.first_whitespace_idx = -1) ↔
      (c.kind = "whitespace" ∧ st.first_new_line_idx ≠ -1 ∧
        st.first_whitespace_idx = -1) by
    rw [isWhitespaceSeg_iff]]
  simp only [scanStep]
  split_ifs <;> simp_all

/-! Arithmetic of `-1`-encoded optional indices. -/

theorem shiftIdx_neg_one (i : Nat) : shiftIdx i (-1) = -1 := by
  simp [shiftIdx]

theorem shiftIdx_shiftIdx_one (i : Nat) (x : Int) (hx : x = -1 ∨ 0 ≤ x) :
    shiftIdx i (shiftIdx 1 x) = shiftIdx (i + 1) x := by
  simp only [shiftIdx]
  split_ifs <;> omega

theorem firstIdx_nonneg_or (p : Node → Bool) (l : List Node) :
    firstIdx p l = -1 ∨ 0 ≤ firstIdx p l := by
  induction l with
  | nil => exact Or.inl rfl
  | cons c rest ih =>
    cases hp : p c with
    | true => right; simp [firstIdx, hp]
    | false =>
      simp only [firstIdx, hp, Bool.false_eq_true, if_false]
      rcases ih with h | h
      · left; rw [h]; simp [shiftIdx]
      · right; simp only [shiftIdx]; split_ifs <;> omega

theorem firstWsAfterNl_nonneg_or (l : List Node) :
    firstWsAfterNl l = -1 ∨ 0 ≤ firstWsAfterNl l := by
  induction l with
  | nil => exact Or.inl rfl
  | cons c rest ih =>
    cases hn : isNewlineSeg c with
    | true =>
      simp only [firstWsAfterNl, hn, if_true]
      rcases firstIdx_nonneg_or isWhitespaceSeg rest with h | h
      · left; rw [h]; simp [shiftIdx]
      · right; simp only [shiftIdx]; split_ifs <;> omega
    | false =>
      simp only [firstWsAfterNl, hn, Bool.false_eq_true, if_false]
      rcases ih with h | h
      · left; rw [h]; simp [shiftIdx]
      · right; simp only [shiftIdx]; split_ifs <;> omega

theorem not_newline_of_whitespace {c : Node} (h : isWhitespaceSeg c = true) :
    isNewlineSeg c = false := by
  rw [isWhitespaceSeg_iff] at h
  rw [← Bool.not_eq_true, isNewlineSeg_iff, h]
  decide

/-! Characterisation of the scanning loop, field by field, for an
arbitrary starting state. -/

theorem scanFrom_cnt (cs : List Node) : ∀ (st : EvalResult) (i : Nat),
    (scanFrom st i cs).cnt_select_targets =
      st.cnt_select_targets + cs.countP isTargetSeg := by
  induction cs with
  | nil => intro st i; simp [scanFrom]
  | cons c rest ih =>
    intro st i
    rw [scanFrom, ih, scanStep_cnt, List.countP_cons]
    split_ifs <;> omega

theorem scanFrom_targets (cs : List Node) : ∀ (st : EvalResult) (i : Nat),
    (scanFrom st i cs).select_targets =
      st.select_targets ++ cs.filter isTargetSeg := by
  induction cs with
  | nil => intro st i; simp [scanFrom]
  | cons c rest ih =>
    intro st i
    rw [scanFrom, ih, scanStep_targets, List.filter_cons]
    split_ifs <;> simp

theorem scanFrom_select_idx (cs : List Node) : ∀ (st : EvalResult) (i : Nat),
    (scanFrom st i cs).select_idx =
      if st.select_idx = -1 then shiftIdx i (firstIdx isSelectKeyword cs)
      else st.select_idx := by
  induction cs with
  | nil =>
    intro st i
    rw [scanFrom]
    split_ifs with h <;> simp [firstIdx, shiftIdx, h]
  | cons c rest ih =>
    intro st i
    rw [scanFrom, ih, scanStep_select_idx]
    cases hp : isSelectKeyword c with
    | true =>
      by_cases hs : st.select_idx = -1
      · simp only [hs, and_true, if_true, firstIdx, hp, if_pos]
        simp [shiftIdx]
      · simp only [hs, and_false, if_false, if_neg hs]
    | false =>
      simp only [hp, Bool.false_eq_true, false_and, if_false, firstIdx]
      split_ifs with hs
      · rw [shiftIdx_shiftIdx_one i _ (firstIdx_nonneg_or _ _)]
      · rfl

theorem scanFrom_fnl (cs : List Node) : ∀ (st : EvalResult) (i : Nat),
    (scanFrom st i cs).first_new_line_idx =
      if st.first_new_line_idx = -1 then shiftIdx i (firstIdx isNewlineSeg cs)
      else st.first_new_line_idx := by
  induction cs with
  | nil =>
    intro st i
    rw [scanFrom]
    split_ifs with h <;> simp [firstIdx, shiftIdx, h]
  | cons c rest ih =>
    intro st i
    rw [scanFrom, ih, scanStep_fnl]
    cases hp : isNewlineSeg c with
    | true =>
      by_cases hs : st.first_new_line_idx = -1
      · simp only [hs, and_true, if_true, firstIdx, hp, if_pos]
        simp [shiftIdx]
      · simp only [hs, and_false, if_false, if_neg hs]
    | false =>
      simp only [hp, Bool.false_eq_true, false_and, if_false, firstIdx]
      split_ifs with hs
      · rw [shiftIdx_shiftIdx_one i _ (firstIdx_nonneg_or _ _)]
      · rfl

theorem scanFrom_ft (cs : List Node) : ∀ (st : EvalResult) (i : Nat),
    (scanFrom st i cs).first_select_target_idx =
      if st.first_select_target_idx = -1 then shiftIdx i (firstIdx isTargetSeg cs)
      else st.first_select_target_idx := by
  induction cs with
  | nil =>
    intro st i
    rw [scanFrom]
    split_ifs with h <;> simp [firstIdx, shiftIdx, h]
  | cons c rest ih =>
    intro st i
    rw [scanFrom, ih, scanStep_ft]
    cases hp : isTargetSeg c with
    | true =>
      by_cases hs : st.first_select_target_idx = -1
      · simp only [hs, and_true, if_true, firstIdx, hp, if_pos]
        simp [shiftIdx]
      · simp only [hs, and_false, if_false, if_neg hs]
    | false =>
      simp only [hp, Bool.false_eq_true, false_and, if_false, firstIdx]
      split_ifs with hs
      · rw [shiftIdx_shiftIdx_one i _ (firstIdx_nonneg_or _ _)]
      · rfl

theorem scanFrom_fwi (cs : List Node) : ∀ (st : EvalResult) (i : Nat),
    (scanFrom st i cs).first_whitespace_idx =
      if st.first_whitespace_idx ≠ -1 then st.first_whitespace_idx
      else if st.first_new_line_idx ≠ -1 then
        shiftIdx i (firstIdx isWhitespaceSeg cs)
      else shiftIdx i (firstWsAfterNl cs) := by
  induction cs with
  | nil =>
    intro st i
    by_cases h1 : st.first_whitespace_idx = -1
    · simp [scanFrom, h1, firstIdx, firstWsAfterNl, shiftIdx]
    · simp [scanFrom, h1]
  | cons c rest ih =>
    intro st i
    rw [scanFrom, ih, scanStep_fwi, scanStep_fnl]
    by_cases hw : isWhitespaceSeg c = true
    · have hn : isNewlineSeg c = false := not_newline_of_whitespace hw
      have eB :
          (if isNewlineSeg c = true ∧ st.first_new_line_idx = -1 then (i : Int)
            else st.first_new_line_idx) = st.first_new_line_idx :=
        if_neg (fun h => by rw [hn] at h; exact absurd h.1 (by simp))
      rw [eB]
      by_cases h1 : st.first_whitespace_idx = -1
      · by_cases h2 : st.first_new_line_idx = -1
        · have eA :
              (if isWhitespaceSeg c = true ∧ st.first_new_line_idx ≠ -1 ∧
                  st.first_whitespace_idx = -1 then (i : Int)
                else st.first_whitespace_idx) = st.first_whitespace_idx :=
            if_neg (fun h => h.2.1 h2)
          rw [eA, if_neg (by simp [h1]), if_neg (by simp [h2]),
            if_neg (by simp [h1]), if_neg (by simp [h2]),
            show firstWsAfterNl (c :: rest) = shiftIdx 1 (firstWsAfterNl rest) by
              simp [firstWsAfterNl, hn],
            shiftIdx_shiftIdx_one i _ (firstWsAfterNl_nonneg_or _)]
        · have eA :
              (if isWhitespaceSeg c = true ∧ st.first_new_line_idx ≠ -1 ∧
                  st.first_whitespace_idx = -1 then (i : Int)
                else st.first_whitespace_idx) = (i : Int) :=
            if_pos ⟨hw, h2, h1⟩
          rw [eA, if_pos (by omega : ((i : Int) ≠ -1)), if_neg (by simp [h1]),
            if_pos h2,
            show firstIdx isWhitespaceSeg (c :: rest) = 0 by simp [firstIdx, hw]]
          simp [shiftIdx]
      · have eA :
            (if isWhitespaceSeg c = true ∧ st.first_new_line_idx ≠ -1 ∧
                st.first_whitespace_idx = -1 then (i : Int)
              else st.first_whitespace_idx) = st.first_whitespace_idx :=
          if_neg (fun h => h1 h.2.2)
        rw [eA, if_pos h1, if_pos h1]
    · have eA :
          (if isWhitespaceSeg c = true ∧ st.first_new_line_idx ≠ -1 ∧
              st.first_whitespace_idx = -1 then (i : Int)
            else st.first_whitespace_idx) = st.first_whitespace_idx :=
        if_neg (fun h => hw h.1)
      rw [eA]
      by_cases h1 : st.first_whitespace_idx = -1
      · by_cases hn : isNewlineSeg c = true
        · by_cases h2 : st.first_new_line_idx = -1
          · have eB :
                (if isNewlineSeg c = true ∧ st.first_new_line_idx = -1 then
                    (i : Int)
                  else st.first_new_line_idx) = (i : Int) :=
              if_pos ⟨hn, h2⟩
            rw [eB, if_neg (by simp [h1]), if_pos (by omega : ((i : Int) ≠ -1)),
              if_neg (by simp [h1]), if_neg (by simp [h2]),
              show firstWsAfterNl (c :: rest) =
                  shiftIdx 1 (firstIdx isWhitespaceSeg rest) by
                simp [firstWsAfterNl, hn],
              shiftIdx_shiftIdx_one i _ (firstIdx_nonneg_or _ _)]
          · have eB :
                (if isNewlineSeg c = true ∧ st.first_new_line_idx = -1 then
                    (i : Int)
                  else st.first_new_line_idx) = st.first_new_line_idx :=
              if_neg (fun h => h2 h.2)
            rw [eB, if_neg (by simp [h1]), if_pos h2, if_neg (by simp [h1]),
              if_pos h2,
              show firstIdx isWhitespaceSeg (c :: rest) =
                  shiftIdx 1 (firstIdx isWhitespaceSeg rest) by
                simp [firstIdx, hw],
              shiftIdx_shiftIdx_one i _ (firstIdx_nonneg_or _ _)]
        · have eB :
              (if isNewlineSeg c = true ∧ st.first_new_line_idx = -1 then
                  (i : Int)
                else st.first_new_line_idx) = st.first_new_line_idx :=
            if_neg (fun h => hn h.1)
          rw [eB]
          by_cases h2 : st.first_new_line_idx = -1
          · rw [if_neg (by simp [h1]), if_neg (by simp [h2]),
              if_neg (by simp [h1]), if_neg (by simp [h2]),
              show firstWsAfterNl (c :: rest) = shiftIdx 1 (firstWsAfterNl rest) by
                simp [firstWsAfterNl, hn],
              shiftIdx_shiftIdx_one i _ (firstWsAfterNl_nonneg_or _)]
          · rw [if_neg (by simp [h1]), if_pos h2, if_neg (by simp [h1]),
              if_pos h2,
              show firstIdx isWhitespaceSeg (c :: rest) =
                  shiftIdx 1 (firstIdx isWhitespaceSeg rest) by
                simp [firstIdx, hw],
              shiftIdx_shiftIdx_one i _ (firstIdx_nonneg_or _ _)]
      · rw [if_pos h1, if_pos h1]

theorem shiftIdx_zero (x : Int) : shiftIdx 0 x = x := by
  simp only [shiftIdx]
  split_ifs <;> omega

/-! What `_get_indexes` computes, field by field. -/

theorem get_indexes_cnt (seg : Node) :
    (_get_indexes seg).cnt_select_targets = seg.segments.countP isTargetSeg := by
  rw [_get_indexes, scanFrom_cnt]
  simp [initState]

theorem get_indexes_targets (seg : Node) :
    (_get_indexes seg).select_targets = seg.segments.filter isTargetSeg := by
  rw [_get_indexes, scanFrom_targets]
  simp [initState]

theorem get_indexes_select_idx (seg : Node) :
    (_get_indexes seg).select_idx = firstIdx isSelectKeyword seg.segments := by
  rw [_get_indexes, scanFrom_select_idx]
  simp [initState, shiftIdx_zero]

theorem get_indexes_fnl (seg : Node) :
    (_get_indexes seg).first_new_line_idx = firstIdx isNewlineSeg seg.segments := by
  rw [_get_indexes, scanFrom_fnl]
  simp [initState, shiftIdx_zero]

theorem get_indexes_ft (seg : Node) :
    (_get_indexes seg).first_select_target_idx =
      firstIdx isTargetSeg seg.segments := by
  rw [_get_indexes, scanFrom_ft]
  simp [initState, shiftIdx_zero]

theorem get_indexes_fwi (seg : Node) :
    (_get_indexes seg).first_whitespace_idx = firstWsAfterNl seg.segments := by
  rw [_get_indexes, scanFrom_fwi]
  rw [if_neg (by simp [initState]), if_neg (by simp [initState]), shiftIdx_zero]

/-! A toolkit of facts about `firstIdx`. -/

theorem shiftIdx_shiftIdx (a b : Nat) (x : Int) (hx : x = -1 ∨ 0 ≤ x) :
    shiftIdx a (shiftIdx b x) = shiftIdx (a + b) x := by
  simp only [shiftIdx]
  split_ifs <;> omega

theorem shiftIdx_eq_neg_one_iff (a : Nat) (x : Int) (hx : x = -1 ∨ 0 ≤ x) :
    shiftIdx a x = -1 ↔ x = -1 := by
  simp only [shiftIdx]
  split_ifs <;> omega

theorem firstIdx_eq_neg_one_iff (p : Node → Bool) (l : List Node) :
    firstIdx p l = -1 ↔ ∀ x ∈ l, p x = false := by
  induction l with
  | nil => simp [firstIdx]
  | cons c rest ih =>
    by_cases hp : p c = true
    · simp [firstIdx, hp]
    · rw [show firstIdx p (c :: rest) = shiftIdx 1 (firstIdx p rest) by
        simp [firstIdx, hp]]
      rw [shiftIdx_eq_neg_one_iff 1 _ (firstIdx_nonneg_or _ _), ih]
      simp only [List.mem_cons]
      constructor
      · intro h x hx
        rcases hx with rfl | hx
        · exact Bool.not_eq_true _ ▸ hp
        · exact h x hx
      · intro h x hx
        exact h x (Or.inr hx)

theorem firstIdx_lt_length (p : Node → Bool) (l : List Node) :
    firstIdx p l < (l.length : Int) := by
  induction l with
  | nil => simp [firstIdx]
  | cons c rest ih =>
    by_cases hp : p c = true
    · rw [show firstIdx p (c :: rest) = 0 by simp [firstIdx, hp]]
      simp only [List.length_cons]
      push_cast
      omega
    · rw [show firstIdx p (c :: rest) = shiftIdx 1 (firstIdx p rest) by
        simp [firstIdx, hp]]
      simp only [shiftIdx, List.length_cons]
      split_ifs <;> push_cast <;> omega

theorem firstIdx_getD (p : Node → Bool) (l : List Node) (d : Node)
    (h : 0 ≤ firstIdx p l) :
    p (l.getD (firstIdx p l).toNat d) = true := by
  induction l with
  | nil => simp [firstIdx] at h
  | cons c rest ih =>
    by_cases hp : p c = true
    · simp [firstIdx, hp]
    · rw [show firstIdx p (c :: rest) = shiftIdx 1 (firstIdx p rest) by
        simp [firstIdx, hp]] at h ⊢
      rcases firstIdx_nonneg_or p rest with h0 | h0
      · rw [h0] at h; simp [shiftIdx] at h
      · have e1 : shiftIdx 1 (firstIdx p rest) = 1 + firstIdx p rest := by
          simp only [shiftIdx]; split_ifs <;> omega
        rw [e1, show (1 + firstIdx p rest).toNat = (firstIdx p rest).toNat + 1 by
          omega]
        simpa using ih h0

theorem firstIdx_min (p : Node → Bool) (l : List Node) (d : Node) :
    ∀ j : Nat, (j : Int) < firstIdx p l → p (l.getD j d) = false := by
  induction l with
  | nil => intro j hj; simp [firstIdx] at hj; omega
  | cons c rest ih =>
    intro j hj
    by_cases hp : p c = true
    · simp [firstIdx, hp] at hj; omega
    · rw [show firstIdx p (c :: rest) = shiftIdx 1 (firstIdx p rest) by
        simp [firstIdx, hp]] at hj
      rcases firstIdx_nonneg_or p rest with h0 | h0
      · rw [h0] at hj; simp [shiftIdx] at hj; omega
      · have e1 : shiftIdx 1 (firstIdx p rest) = 1 + firstIdx p rest := by
          simp only [shiftIdx]; split_ifs <;> omega
        rw [e1] at hj
        cases j with
        | zero => simpa using Bool.not_eq_true _ ▸ hp
        | succ j' =>
          have : (j' : Int) < firstIdx p rest := by push_cast at hj ⊢; omega
          simpa using ih j' this

theorem firstIdx_append (p : Node → Bool) (A B : List Node) :
    firstIdx p (A ++ B) =
      if firstIdx p A = -1 then shiftIdx A.length (firstIdx p B)
      else firstIdx p A := by
  induction A with
  | nil => simp [firstIdx, shiftIdx_zero]
  | cons c A' ih =>
    by_cases hp : p c = true
    · simp [firstIdx, hp]
    · rw [show firstIdx p (c :: A' ++ B) = shiftIdx 1 (firstIdx p (A' ++ B)) by
        simp [firstIdx, hp],
        show firstIdx p (c :: A') = shiftIdx 1 (firstIdx p A') by
        simp [firstIdx, hp], ih]
      by_cases hA : firstIdx p A' = -1
      · rw [if_pos hA, if_pos (by rw [hA]; rfl),
          shiftIdx_shiftIdx 1 A'.length _ (firstIdx_nonneg_or _ _)]
        simp only [List.length_cons]
        rw [show (1 + A'.length) = A'.length + 1 by omega]
      · rw [if_neg hA, if_neg (by
          rw [shiftIdx_eq_neg_one_iff 1 _ (firstIdx_nonneg_or _ _)]
          exact hA)]

theorem firstIdx_drop (p : Node → Bool) (l : List Node) :
    ∀ m : Nat, (m : Int) ≤ firstIdx p l →
      firstIdx p (l.drop m) = firstIdx p l - m := by
  induction l with
  | nil =>
    intro m hm
    simp [firstIdx] at hm
    omega
  | cons c rest ih =>
    intro m hm
    cases m with
    | zero => simp
    | succ m' =>
      by_cases hp : p c = true
      · simp [firstIdx, hp] at hm; omega
      · rw [show firstIdx p (c :: rest) = shiftIdx 1 (firstIdx p rest) by
          simp [firstIdx, hp]] at hm ⊢
        rcases firstIdx_nonneg_or p rest with h0 | h0
        · rw [h0] at hm; simp [shiftIdx] at hm; omega
        · have e1 : shiftIdx 1 (firstIdx p rest) = 1 + firstIdx p rest := by
            simp only [shiftIdx]; split_ifs <;> omega
          rw [e1] at hm ⊢
          rw [List.drop_succ_cons, ih m' (by push_cast at hm ⊢; omega)]
          push_cast
          omega

theorem firstIdx_take_eq_neg_one (p : Node → Bool) (l : List Node) :
    ∀ f : Nat, ((f : Int) ≤ firstIdx p l ∨ firstIdx p l = -1) →
      firstIdx p (l.take f) = -1 := by
  induction l with
  | nil => intro f _; simp [firstIdx]
  | cons c rest ih =>
    intro f hf
    cases f with
    | zero => simp [firstIdx]
    | succ f' =>
      by_cases hp : p c = true
      · rcases hf with hf | hf
        · simp [firstIdx, hp] at hf; omega
        · simp [firstIdx, hp] at hf
      · rw [show firstIdx p (c :: rest) = shiftIdx 1 (firstIdx p rest) by
          simp [firstIdx, hp]] at hf
        rw [List.take_succ_cons,
          show firstIdx p (c :: rest.take f') =
            shiftIdx 1 (firstIdx p (rest.take f')) by simp [firstIdx, hp]]
        rcases firstIdx_nonneg_or p rest with h0 | h0
        · rw [ih f' (Or.inr h0)]; rfl
        · have e1 : shiftIdx 1 (firstIdx p rest) = 1 + firstIdx p rest := by
            simp only [shiftIdx]; split_ifs <;> omega
          rw [e1] at hf
          have : (f' : Int) ≤ firstIdx p rest := by
            rcases hf with hf | hf
            · push_cast at hf ⊢; omega
            · omega
          rw [ih f' (Or.inl this)]; rfl

theorem firstIdx_take_of_lt (p : Node → Bool) (l : List Node) :
    ∀ f : Nat, 0 ≤ firstIdx p l → firstIdx p l < (f : Int) →
      firstIdx p (l.take f) = firstIdx p l := by
  induction l with
  | nil => intro f h0 _; simp [firstIdx] at h0 ⊢
  | cons c rest ih =>
    intro f h0 hf
    cases f with
    | zero =>
      exfalso
      omega
    | succ f' =>
      by_cases hp : p c = true
      · simp [firstIdx, hp]
      · rw [show firstIdx p (c :: rest) = shiftIdx 1 (firstIdx p rest) by
          simp [firstIdx, hp]] at h0 hf ⊢
        rcases firstIdx_nonneg_or p rest with hr | hr
        · rw [hr] at h0; simp [shiftIdx] at h0
        · have e1 : shiftIdx 1 (firstIdx p rest) = 1 + firstIdx p rest := by
            simp only [shiftIdx]; split_ifs <;> omega
          rw [e1] at h0 hf
          rw [List.take_succ_cons,
            show firstIdx p (c :: rest.take f') =
              shiftIdx 1 (firstIdx p (rest.take f')) by simp [firstIdx, hp],
            ih f' hr (by push_cast at hf ⊢; omega)]

theorem getD_eq_get (l : List Node) (d : Node) :
    ∀ (n : Nat) (h : n < l.length), l.getD n d = l.get ⟨n, h⟩ := by
  induction l with
  | nil => intro n h; simp at h
  | cons c rest ih =>
    intro n h
    cases n with
    | zero => rfl
    | succ n' => simpa using ih n' (by simpa using h)

theorem kind_withSegments (n : Node) (cs : List Node) :
    (n.withSegments cs).kind = n.kind := by
  cases n; rfl

theorem segments_withSegments (n : Node) (cs : List Node) :
    (n.withSegments cs).segments = cs := by
  cases n; rfl

theorem not_target_of_newline {x : Node} (h : isNewlineSeg x = true) :
    isTargetSeg x = false := by
  rw [isNewlineSeg_iff] at h
  rw [← Bool.not_eq_true, isTargetSeg_iff, h]
  decide

/-- The wildcard scan succeeds exactly when some `select_target_element`
child has a direct `wildcard_expression` child. -/
theorem is_wildcard_scan_iff (clause : Node) :
    is_wildcard_scan clause = true ↔
      ∃ t ∈ clause.segments, isTargetSeg t = true ∧
        ∃ w ∈ t.segments, w.kind = "wildcard_expression" := by
  simp [is_wildcard_scan, List.any_eq_true, isTargetSeg]

/-! Reductions of the full rule evaluation under the various branch
conditions. -/

theorem eval_single_emits (clause : Node) (hk : clause.kind = "select_clause")
    (h1 : clause.segments.countP isTargetSeg = 1)
    (hw : is_wildcard_scan clause = false)
    (ho1 : (_get_indexes clause).select_idx <
      (_get_indexes clause).first_new_line_idx)
    (ho2 : (_get_indexes clause).first_new_line_idx <
      (_get_indexes clause).first_select_target_idx) :
    ∃ h : ((_get_indexes clause).first_new_line_idx).toNat <
        clause.segments.length,
      isNewlineSeg (clause.segments.get
        ⟨((_get_indexes clause).first_new_line_idx).toNat, h⟩) = true ∧
      _eval clause = .ok (some ⟨clause, [LintFix.delete (clause.segments.get
        ⟨((_get_indexes clause).first_new_line_idx).toNat, h⟩)]⟩) := by
  have hsel := get_indexes_select_idx clause
  have hfnl := get_indexes_fnl clause
  have hft := get_indexes_ft clause
  have hF0 : 0 ≤ (_get_indexes clause).first_new_line_idx := by
    rcases firstIdx_nonneg_or isSelectKeyword clause.segments with h | h <;>
      rw [← hsel] at h <;> omega
  have hFlen : (_get_indexes clause).first_new_line_idx <
      (clause.segments.length : Int) := by
    have := firstIdx_lt_length isTargetSeg clause.segments
    rw [← hft] at this
    omega
  have hlen : ((_get_indexes clause).first_new_line_idx).toNat <
      clause.segments.length := by omega
  have hpy : pyGet clause.segments (_get_indexes clause).first_new_line_idx =
      .ok (clause.segments.get
        ⟨((_get_indexes clause).first_new_line_idx).toNat, hlen⟩) := by
    rw [pyGet, if_neg (by omega), dif_pos hlen]
  refine ⟨hlen, ?_, ?_⟩
  · rw [← getD_eq_get clause.segments (make_newline 0) _ hlen, hfnl]
    exact firstIdx_getD isNewlineSeg clause.segments (make_newline 0)
      (by rw [← hfnl]; exact hF0)
  · rw [_eval, if_pos hk, dispatchEval,
      if_pos (by rw [get_indexes_cnt]; exact h1),
      _eval_single_select_target_element, if_neg (by rw [hw]; simp),
      if_pos ⟨ho1, ho2⟩, hpy]

theorem eval_single_none (clause : Node) (hk : clause.kind = "select_clause")
    (h1 : clause.segments.countP isTargetSeg = 1)
    (hw : is_wildcard_scan clause = false)
    (hnord : ¬((_get_indexes clause).select_idx <
      (_get_indexes clause).first_new_line_idx ∧
      (_get_indexes clause).first_new_line_idx <
      (_get_indexes clause).first_select_target_idx)) :
    _eval clause = .ok none := by
  rw [_eval, if_pos hk, dispatchEval,
    if_pos (by rw [get_indexes_cnt]; exact h1),
    _eval_single_select_target_element, if_neg (by rw [hw]; simp),
    if_neg hnord]

theorem eval_wildcard_none (clause : Node) (hk : clause.kind = "select_clause")
    (h1 : clause.segments.countP isTargetSeg = 1)
    (hwild : is_wildcard_scan clause = true) :
    _eval clause = .ok none := by
  rw [_eval, if_pos hk, dispatchEval,
    if_pos (by rw [get_indexes_cnt]; exact h1),
    _eval_single_select_target_element, if_pos hwild]

theorem eval_multi_emits (clause : Node) (hk : clause.kind = "select_clause")
    (h2 : 2 ≤ clause.segments.countP isTargetSeg)
    (hnl : clause.segments.any isNewlineSeg = false) :
    ∃ t ts, clause.segments.filter isTargetSeg = t :: ts ∧
      _eval clause = .ok (some ⟨clause, [LintFix.create t
        (make_newline (advance_by clause.pos clause.raw))]⟩) := by
  have hfil : clause.segments.filter isTargetSeg ≠ [] := by
    intro he
    rw [List.countP_eq_length_filter, he] at h2
    simp at h2
  obtain ⟨t, ts, hts⟩ := List.exists_cons_of_ne_nil hfil
  refine ⟨t, ts, hts, ?_⟩
  have hfnlabs : (_get_indexes clause).first_new_line_idx = -1 := by
    rw [get_indexes_fnl, firstIdx_eq_neg_one_iff]
    intro x hx
    simpa using List.any_eq_false.mp hnl x hx
  have hpy : pyGet (_get_indexes clause).select_targets 0 = .ok t := by
    rw [get_indexes_targets, hts, pyGet, if_neg (by omega), dif_pos (by simp)]
    rfl
  rw [_eval, if_pos hk, dispatchEval,
    if_neg (by rw [get_indexes_cnt]; omega),
    if_pos (by rw [get_indexes_cnt]; omega),
    _eval_multiple_select_target_elements, if_pos hfnlabs, hpy]

theorem eval_multi_none (clause : Node) (hk : clause.kind = "select_clause")
    (h2 : 2 ≤ clause.segments.countP isTargetSeg)
    (hnl : clause.segments.any isNewlineSeg = true) :
    _eval clause = .ok none := by
  have hfnl : (_get_indexes clause).first_new_line_idx ≠ -1 := by
    rw [get_indexes_fnl]
    intro he
    obtain ⟨x, hx, hpx⟩ := List.any_eq_true.mp hnl
    have := (firstIdx_eq_neg_one_iff isNewlineSeg clause.segments).mp he x hx
    rw [this] at hpx
    cases hpx
  rw [_eval, if_pos hk, dispatchEval,
    if_neg (by rw [get_indexes_cnt]; omega),
    if_pos (by rw [get_indexes_cnt]; omega),
    _eval_multiple_select_target_elements, if_neg hfnl]

theorem eval_zero_none (clause : Node)
    (h0 : clause.segments.countP isTargetSeg = 0) :
    _eval clause = .ok none := by
  by_cases hk : clause.kind = "select_clause"
  · rw [_eval, if_pos hk, dispatchEval,
      if_neg (by rw [get_indexes_cnt]; omega),
      if_neg (by rw [get_indexes_cnt]; omega)]
  · rw [_eval, if_neg hk]

theorem not_newline_of_target {x : Node} (h : isTargetSeg x = true) :
    isNewlineSeg x = false := by
  rw [isTargetSeg_iff] at h
  rw [← Bool.not_eq_true, isNewlineSeg_iff, h]
  decide

theorem eraseIdx_eq_take_append_drop (l : List Node) :
    ∀ n : Nat, l.eraseIdx n = l.take n ++ l.drop (n + 1) := by
  induction l with
  | nil => intro n; simp
  | cons c rest ih =>
    intro n
    cases n with
    | zero => simp
    | succ n' => simp [List.eraseIdx, ih n']

theorem drop_eq_getD_cons (l : List Node) (d : Node) :
    ∀ n : Nat, n < l.length → l.drop n = l.getD n d :: l.drop (n + 1) := by
  induction l with
  | nil => intro n h; simp at h
  | cons c rest ih =>
    intro n h
    cases n with
    | zero => simp
    | succ n' =>
      rw [List.drop_succ_cons, ih n' (by simpa using h)]
      simp

theorem getD_drop (l : List Node) (d : Node) :
    ∀ m n : Nat, (l.drop m).getD n d = l.getD (m + n) d := by
  induction l with
  | nil => intro m n; simp
  | cons c rest ih =>
    intro m n
    cases m with
    | zero => simp
    | succ m' =>
      rw [List.drop_succ_cons, ih m' n]
      simp [Nat.succ_add]

/-- Core of the single-target idempotence analysis: after removing the
child at `first_new_line_idx` from a clause whose landmarks satisfy the
delete condition and which has no further newline strictly before the
first target, the rebuilt child list no longer satisfies the ordering
condition. -/
theorem rescan_not_ordered (cs : List Node) (d : Node)
    (hS0 : 0 ≤ firstIdx isSelectKeyword cs)
    (hSF : firstIdx isSelectKeyword cs < firstIdx isNewlineSeg cs)
    (hFT : firstIdx isNewlineSeg cs < firstIdx isTargetSeg cs)
    (huniq : ∀ j : Nat, firstIdx isNewlineSeg cs < (j : Int) →
      (j : Int) < firstIdx isTargetSeg cs →
      isNewlineSeg (cs.getD j d) = false) :
    ¬(firstIdx isSelectKeyword
        (cs.take (firstIdx isNewlineSeg cs).toNat ++
          cs.drop ((firstIdx isNewlineSeg cs).toNat + 1)) <
      firstIdx isNewlineSeg
        (cs.take (firstIdx isNewlineSeg cs).toNat ++
          cs.drop ((firstIdx isNewlineSeg cs).toNat + 1)) ∧
      firstIdx isNewlineSeg
        (cs.take (firstIdx isNewlineSeg cs).toNat ++
          cs.drop ((firstIdx isNewlineSeg cs).toNat + 1)) <
      firstIdx isTargetSeg
        (cs.take (firstIdx isNewlineSeg cs).toNat ++
          cs.drop ((firstIdx isNewlineSeg cs).toNat + 1))) := by
  have hF0 : 0 ≤ firstIdx isNewlineSeg cs := by omega
  have hFcast : (((firstIdx isNewlineSeg cs).toNat : Nat) : Int) =
      firstIdx isNewlineSeg cs := Int.toNat_of_nonneg hF0
  have hT0 : 0 ≤ firstIdx isTargetSeg cs := by omega
  have hTlen := firstIdx_lt_length isTargetSeg cs
  have hA_nl : firstIdx isNewlineSeg
      (cs.take (firstIdx isNewlineSeg cs).toNat) = -1 :=
    firstIdx_take_eq_neg_one _ _ _ (Or.inl (le_of_eq hFcast))
  have hA_tgt : firstIdx isTargetSeg
      (cs.take (firstIdx isNewlineSeg cs).toNat) = -1 :=
    firstIdx_take_eq_neg_one _ _ _ (Or.inl (by omega))
  have hA_kw : firstIdx isSelectKeyword
      (cs.take (firstIdx isNewlineSeg cs).toNat) =
      firstIdx isSelectKeyword cs :=
    firstIdx_take_of_lt _ _ _ hS0 (by omega)
  have hlenA : (cs.take (firstIdx isNewlineSeg cs).toNat).length =
      (firstIdx isNewlineSeg cs).toNat := by
    rw [List.length_take]
    omega
  have hB_tgt : firstIdx isTargetSeg
      (cs.drop ((firstIdx isNewlineSeg cs).toNat + 1)) =
      firstIdx isTargetSeg cs -
        ((firstIdx isNewlineSeg cs).toNat + 1 : Nat) :=
    firstIdx_drop _ _ _ (by push_cast; omega)
  rintro ⟨hc1, hc2⟩
  rw [firstIdx_append, hA_kw, if_neg (by omega), firstIdx_append, hA_nl,
    if_pos rfl, hlenA] at hc1
  rw [firstIdx_append, hA_nl, if_pos rfl, hlenA, firstIdx_append, hA_tgt,
    if_pos rfl, hlenA, hB_tgt] at hc2
  rcases firstIdx_nonneg_or isNewlineSeg
      (cs.drop ((firstIdx isNewlineSeg cs).toNat + 1)) with hkneg | hk0
  · rw [hkneg, shiftIdx_neg_one] at hc1
    omega
  · have hknl := firstIdx_getD isNewlineSeg
      (cs.drop ((firstIdx isNewlineSeg cs).toNat + 1)) d hk0
    rw [getD_drop] at hknl
    have hjgt : firstIdx isNewlineSeg cs <
        (((firstIdx isNewlineSeg cs).toNat + 1 +
          (firstIdx isNewlineSeg (cs.drop ((firstIdx isNewlineSeg cs).toNat +
            1))).toNat : Nat) : Int) := by
      push_cast
      omega
    by_cases hjlt : (((firstIdx isNewlineSeg cs).toNat + 1 +
        (firstIdx isNewlineSeg (cs.drop ((firstIdx isNewlineSeg cs).toNat +
          1))).toNat : Nat) : Int) < firstIdx isTargetSeg cs
    · have hfalse := huniq _ hjgt hjlt
      rw [hfalse] at hknl
      cases hknl
    · have htgtT := firstIdx_getD isTargetSeg cs d hT0
      have hne : ((firstIdx isNewlineSeg cs).toNat + 1 +
          (firstIdx isNewlineSeg (cs.drop ((firstIdx isNewlineSeg cs).toNat +
            1))).toNat) ≠ (firstIdx isTargetSeg cs).toNat := by
        intro heq
        rw [heq] at hknl
        rw [not_newline_of_target htgtT] at hknl
        cases hknl
      simp only [shiftIdx] at hc2
      split_ifs at hc2 <;> push_cast at hjlt hne ⊢ <;> omega

/-! Claim theorems. -/

/-- C6: the landmark scanner, on any clause, returns a summary whose
`target_count` is the number of direct `select_target_element` children,
whose `targets` are exactly those children in document order, whose
`keyword_index` / `first_newline_index` / `first_target_index` are the
index of the first `SELECT` keyword / `newline` / `select_target_element`
child (or `-1` for absent), and whose `first_whitespace_index` is the
first `whitespace` child occurring strictly after the first recorded
`newline` child (or `-1`). -/
theorem C6_scanner_summary (clause : Node) :
    (_get_indexes clause).cnt_select_targets =
        clause.segments.countP isTargetSeg ∧
    (_get_indexes clause).select_targets =
        clause.segments.filter isTargetSeg ∧
    (_get_indexes clause).select_idx =
        firstIdx isSelectKeyword clause.segments ∧
    (_get_indexes clause).first_new_line_idx =
        firstIdx isNewlineSeg clause.segments ∧
    (_get_indexes clause).first_select_target_idx =
        firstIdx isTargetSeg clause.segments ∧
    (_get_indexes clause).first_whitespace_idx =
        firstWsAfterNl clause.segments :=
  ⟨get_indexes_cnt clause, get_indexes_targets clause,
    get_indexes_select_idx clause, get_indexes_fnl clause,
    get_indexes_ft clause, get_indexes_fwi clause⟩

/-- C7: a clause with zero `select_target_element` children (empty child
list, missing keyword, any combination of absent landmarks) yields
`ok none` (NoIssue); in particular no exception is raised. -/
theorem C7_zero_targets_no_issue (clause : Node)
    (h0 : clause.segments.countP isTargetSeg = 0) :
    _eval clause = .ok none :=
  eval_zero_none clause h0

/-- C7 witness: a clause with only a keyword and whitespace. -/
theorem C7_witness : _eval (mkClause [kwSelect, wsSeg]) = .ok none :=
  C7_zero_targets_no_issue (mkClause [kwSelect, wsSeg]) (by decide)

/-- C9: the decision logic never reads `first_whitespace_idx`: the
outcome of the dispatch on any summary and clause is unchanged under an
arbitrary replacement of that field. -/
theorem C9_whitespace_independent (er : EvalResult) (w : Int) (seg : Node) :
    dispatchEval { er with first_whitespace_idx := w } seg =
      dispatchEval er seg := by
  cases er
  rfl

/-- C3: for a clause with two or more select targets, the rule emits a
single `create` fix inserting a newline before the first target exactly
when no newline child exists; when some newline child is present it
returns `ok none`. -/
theorem C3_multi_insert_iff (clause : Node) (hk : clause.kind = "select_clause")
    (h2 : 2 ≤ clause.segments.countP isTargetSeg) :
    (clause.segments.any isNewlineSeg = false →
      ∃ t ts, clause.segments.filter isTargetSeg = t :: ts ∧
        _eval clause = .ok (some ⟨clause, [LintFix.create t
          (make_newline (advance_by clause.pos clause.raw))]⟩)) ∧
    (clause.segments.any isNewlineSeg = true → _eval clause = .ok none) :=
  ⟨fun hnl => eval_multi_emits clause hk h2 hnl,
   fun hnl => eval_multi_none clause hk h2 hnl⟩

/-- C3 witness: two targets with newlines present give NoIssue, two
targets without a newline give the insert fix. -/
theorem C3_witness :
    _eval (mkClause [kwSelect, nlSeg, tgtA, commaSeg, nlSeg, tgtB]) =
      .ok none ∧
    _eval (mkClause [kwSelect, wsSeg, tgtA, commaSeg, tgtB]) ≠ .ok none := by
  constructor
  · exact (C3_multi_insert_iff (mkClause [kwSelect, nlSeg, tgtA, commaSeg,
      nlSeg, tgtB]) (by rfl) (by decide)).2 (by decide)
  · obtain ⟨t, ts, _, he⟩ := (C3_multi_insert_iff (mkClause [kwSelect, wsSeg,
      tgtA, commaSeg, tgtB]) (by rfl) (by decide)).1 (by decide)
    rw [he]
    simp

/-- C8: the newline node constructed by the multi-target insert fix
carries the clause's own position marker advanced by the clause's full
raw text (its end-of-text position), not the position of the first-target
anchor node. -/
theorem C8_insert_position (clause : Node) (hk : clause.kind = "select_clause")
    (h2 : 2 ≤ clause.segments.countP isTargetSeg)
    (hnl : clause.segments.any isNewlineSeg = false) :
    ∃ t ts, clause.segments.filter isTargetSeg = t :: ts ∧
      ∃ ins : Node,
        _eval clause = .ok (some ⟨clause, [LintFix.create t ins]⟩) ∧
        ins.kind = "newline" ∧
        ins.pos = advance_by clause.pos clause.raw := by
  obtain ⟨t, ts, hts, he⟩ := eval_multi_emits clause hk h2 hnl
  exact ⟨t, ts, hts, make_newline (advance_by clause.pos clause.raw), he,
    rfl, rfl⟩

/-- C8 witness: on `SELECT a,b` (positions as in the example segments)
the inserted newline sits at offset 10, the clause end, which differs
from the anchor target position 7. -/
theorem C8_witness :
    _eval (mkClause [kwSelect, wsSeg, tgtA, commaSeg, tgtB]) ≠ .ok none ∧
    advance_by (mkClause [kwSelect, wsSeg, tgtA, commaSeg, tgtB]).pos
      (mkClause [kwSelect, wsSeg, tgtA, commaSeg, tgtB]).raw ≠ tgtA.pos := by
  constructor
  · obtain ⟨t, ts, _, ins, he, _, _⟩ := C8_insert_position
      (mkClause [kwSelect, wsSeg, tgtA, commaSeg, tgtB]) (by rfl) (by decide)
      (by decide)
    rw [he]
    simp
  · decide

/-- C4: for a single-target clause, a `wildcard_expression` among the
direct children of the target makes the rule return `ok none` regardless
of newline placement; when no direct child of the target is a wildcard
(even if one is nested deeper), the exemption does not apply and the
ordering condition still produces a violation. -/
theorem C4_wildcard_exemption (clause : Node) (hk : clause.kind = "select_clause")
    (h1 : clause.segments.countP isTargetSeg = 1) :
    ((∃ t ∈ clause.segments, isTargetSeg t = true ∧
        ∃ w ∈ t.segments, w.kind = "wildcard_expression") →
      _eval clause = .ok none) ∧
    ((∀ t ∈ clause.segments, isTargetSeg t = true →
        ∀ w ∈ t.segments, ¬(w.kind = "wildcard_expression")) →
      ((_get_indexes clause).select_idx <
          (_get_indexes clause).first_new_line_idx ∧
        (_get_indexes clause).first_new_line_idx <
          (_get_indexes clause).first_select_target_idx) →
      _eval clause ≠ .ok none) := by
  constructor
  · intro hext
    exact eval_wildcard_none clause hk h1 ((is_wildcard_scan_iff clause).mpr hext)
  · intro hnd hord
    have hw : is_wildcard_scan clause = false := by
      rw [← Bool.not_eq_true]
      rw [is_wildcard_scan_iff]
      rintro ⟨t, ht, htgt, w, hwmem, hkind⟩
      exact hnd t ht htgt w hwmem hkind
    obtain ⟨hl, _, he⟩ := eval_single_emits clause hk h1 hw hord.1 hord.2
    rw [he]
    simp

/-- C4 witness: a direct wildcard target is exempt even with a newline; a
wildcard nested inside a function call is not exempt and gets flagged. -/
theorem C4_witness :
    _eval (mkClause [kwSelect, nlSeg, tgtStar]) = .ok none ∧
    _eval (mkClause [kwSelect, nlSeg, tgtDeepStar]) ≠ .ok none := by
  constructor
  · exact (C4_wildcard_exemption (mkClause [kwSelect, nlSeg, tgtStar])
      (by rfl) (by decide)).1 (by decide)
  · exact (C4_wildcard_exemption (mkClause [kwSelect, nlSeg, tgtDeepStar])
      (by rfl) (by decide)).2 (by decide) (by decide)

/-- C5: for a clause with two or more targets and no newline child,
inserting the proposed newline immediately before the first target and
re-running the rule yields `ok none` (the violation is not re-triggered). -/
theorem C5_insert_idempotent (clause : Node) (hk : clause.kind = "select_clause")
    (h2 : 2 ≤ clause.segments.countP isTargetSeg)
    (hnl : clause.segments.any isNewlineSeg = false) :
    _eval (clause.withSegments (clause.segments.insertIdx
      ((_get_indexes clause).first_select_target_idx).toNat
      (make_newline (advance_by clause.pos clause.raw)))) = .ok none := by
  have hT0 : 0 ≤ (_get_indexes clause).first_select_target_idx := by
    rcases firstIdx_nonneg_or isTargetSeg clause.segments with h | h
    · exfalso
      have := (firstIdx_eq_neg_one_iff isTargetSeg clause.segments).mp h
      have hc : clause.segments.countP isTargetSeg = 0 := by
        rw [List.countP_eq_length_filter, List.filter_eq_nil_iff.mpr
          (by intro x hx; simpa using this x hx)]
        rfl
      omega
    · rw [get_indexes_ft]; exact h
  have hTlen : (_get_indexes clause).first_select_target_idx <
      (clause.segments.length : Int) := by
    rw [get_indexes_ft]; exact firstIdx_lt_length isTargetSeg clause.segments
  have hle : ((_get_indexes clause).first_select_target_idx).toNat ≤
      clause.segments.length := by omega
  have hperm : (clause.segments.insertIdx
      ((_get_indexes clause).first_select_target_idx).toNat
      (make_newline (advance_by clause.pos clause.raw))).Perm
      (make_newline (advance_by clause.pos clause.raw) :: clause.segments) :=
    List.perm_insertIdx _ _ hle
  apply eval_multi_none
  · rw [kind_withSegments]; exact hk
  · rw [segments_withSegments, hperm.countP_eq, List.countP_cons]
    simp only [show isTargetSeg (make_newline (advance_by clause.pos
      clause.raw)) = false from rfl]
    omega
  · rw [segments_withSegments, List.any_eq_true]
    exact ⟨make_newline (advance_by clause.pos clause.raw),
      hperm.mem_iff.mpr (List.mem_cons_self _ _), rfl⟩

/-- C5 witness: the fixed version of `SELECT a,b`. -/
theorem C5_witness :
    _eval ((mkClause [kwSelect, wsSeg, tgtA, commaSeg, tgtB]).withSegments
      ((mkClause [kwSelect, wsSeg, tgtA, commaSeg, tgtB]).segments.insertIdx
        ((_get_indexes (mkClause [kwSelect, wsSeg, tgtA, commaSeg,
          tgtB])).first_select_target_idx).toNat
        (make_newline (advance_by
          (mkClause [kwSelect, wsSeg, tgtA, commaSeg, tgtB]).pos
          (mkClause [kwSelect, wsSeg, tgtA, commaSeg, tgtB]).raw)))) =
      .ok none :=
  C5_insert_idempotent (mkClause [kwSelect, wsSeg, tgtA, commaSeg, tgtB])
    (by rfl) (by decide) (by decide)

/-- C10: the rule never raises (never returns `Except.error`); when the
single-target delete branch fires, `first_new_line_idx` is a valid index
and the child there is a `newline`; when the multi-target insert branch
can fire, the collected target list is non-empty. -/
theorem C10_fix_safety (clause : Node) :
    _eval clause ≠ .error () ∧
    (clause.segments.countP isTargetSeg = 1 →
      is_wildcard_scan clause = false →
      (_get_indexes clause).select_idx <
        (_get_indexes clause).first_new_line_idx →
      (_get_indexes clause).first_new_line_idx <
        (_get_indexes clause).first_select_target_idx →
      0 ≤ (_get_indexes clause).first_new_line_idx ∧
      ∃ n, clause.segments.get?
        ((_get_indexes clause).first_new_line_idx).toNat = some n ∧
        n.kind = "newline") ∧
    (1 < (_get_indexes clause).cnt_select_targets →
      (_get_indexes clause).select_targets ≠ []) := by
  refine ⟨?_, ?_, ?_⟩
  · by_cases hk : clause.kind = "select_clause"
    · rcases Nat.lt_trichotomy (clause.segments.countP isTargetSeg) 1
        with h | h | h
      · rw [eval_zero_none clause (by omega)]
        simp
      · cases hwild : is_wildcard_scan clause with
        | true =>
          rw [eval_wildcard_none clause hk h hwild]
          simp
        | false =>
          by_cases hord : (_get_indexes clause).select_idx <
              (_get_indexes clause).first_new_line_idx ∧
              (_get_indexes clause).first_new_line_idx <
              (_get_indexes clause).first_select_target_idx
          · obtain ⟨hl, _, he⟩ :=
              eval_single_emits clause hk h hwild hord.1 hord.2
            rw [he]
            simp
          · rw [eval_single_none clause hk h hwild hord]
            simp
      · cases hnl : clause.segments.any isNewlineSeg with
        | true =>
          rw [eval_multi_none clause hk (by omega) hnl]
          simp
        | false =>
          obtain ⟨t, ts, _, he⟩ := eval_multi_emits clause hk (by omega) hnl
          rw [he]
          simp
    · rw [_eval, if_neg hk]
      simp
  · intro _ _ ho1 ho2
    have hF0 : 0 ≤ (_get_indexes clause).first_new_line_idx := by
      rcases firstIdx_nonneg_or isSelectKeyword clause.segments with h | h <;>
        rw [← get_indexes_select_idx] at h <;> omega
    have hFlen : (_get_indexes clause).first_new_line_idx <
        (clause.segments.length : Int) := by
      have := firstIdx_lt_length isTargetSeg clause.segments
      rw [← get_indexes_ft] at this
      omega
    have hlen : ((_get_indexes clause).first_new_line_idx).toNat <
        clause.segments.length := by omega
    refine ⟨hF0, clause.segments.get ⟨_, hlen⟩, List.get?_eq_get hlen, ?_⟩
    rw [← getD_eq_get clause.segments (make_newline 0) _ hlen]
    rw [← isNewlineSeg_iff]
    rw [get_indexes_fnl]
    exact firstIdx_getD isNewlineSeg clause.segments (make_newline 0)
      (by rw [← get_indexes_fnl]; exact hF0)
  · intro hcnt
    rw [get_indexes_targets]
    rw [get_indexes_cnt] at hcnt
    intro he
    rw [List.countP_eq_length_filter, he] at hcnt
    simp at hcnt

/-- C10 witness: safety at the delete-emitting clause and a two-target
clause. -/
theorem C10_witness :
    _eval (mkClause [kwSelect, nlSeg, tgtA]) ≠ .error () ∧
    0 ≤ (_get_indexes (mkClause [kwSelect, nlSeg, tgtA])).first_new_line_idx ∧
    (_get_indexes (mkClause [kwSelect, wsSeg, tgtA, commaSeg,
      tgtB])).select_targets ≠ [] :=
  ⟨(C10_fix_safety (mkClause [kwSelect, nlSeg, tgtA])).1,
   ((C10_fix_safety (mkClause [kwSelect, nlSeg, tgtA])).2.1 (by decide)
     (by decide) (by decide) (by decide)).1,
   (C10_fix_safety (mkClause [kwSelect, wsSeg, tgtA, commaSeg, tgtB])).2.2
     (by decide)⟩

/-- C1 counterexample: a single-target clause `[newline, target]` with no
`SELECT` keyword at all.  The claim requires all three landmarks to be
present for a violation, so it predicts `NoIssue`; the code records the
absent keyword as `-1`, the comparison `-1 < 0 < 1` succeeds, and the
delete violation is emitted anyway. -/
theorem C1_counterexample :
    (mkClause [nlSeg, tgtA]).segments.countP isTargetSeg = 1 ∧
    is_wildcard_scan (mkClause [nlSeg, tgtA]) = false ∧
    (_get_indexes (mkClause [nlSeg, tgtA])).select_idx = -1 ∧
    _eval (mkClause [nlSeg, tgtA]) =
      .ok (some ⟨mkClause [nlSeg, tgtA], [LintFix.delete nlSeg]⟩) :=
  ⟨by decide, by decide, by decide, by rfl⟩

/-- C1 (amended): for a single-target clause without a direct wildcard
child, the rule returns the delete violation on the newline child at
`first_new_line_idx` iff the `-1`-encoded comparison
`select_idx < first_new_line_idx < first_select_target_idx` holds — the
keyword need not be present, since an absent `select_idx` is recorded as
`-1` and compares below every recorded index; in every other case the
result is `ok none`. -/
theorem C1_single_delete_iff (clause : Node)
    (hk : clause.kind = "select_clause")
    (h1 : clause.segments.countP isTargetSeg = 1)
    (hw : is_wildcard_scan clause = false) :
    ((_get_indexes clause).select_idx <
        (_get_indexes clause).first_new_line_idx ∧
      (_get_indexes clause).first_new_line_idx <
        (_get_indexes clause).first_select_target_idx →
      ∃ n, clause.segments.get?
          ((_get_indexes clause).first_new_line_idx).toNat = some n ∧
        n.kind = "newline" ∧
        _eval clause = .ok (some ⟨clause, [LintFix.delete n]⟩)) ∧
    (¬((_get_indexes clause).select_idx <
        (_get_indexes clause).first_new_line_idx ∧
      (_get_indexes clause).first_new_line_idx <
        (_get_indexes clause).first_select_target_idx) →
      _eval clause = .ok none) := by
  constructor
  · rintro ⟨ho1, ho2⟩
    obtain ⟨hl, hkindn, he⟩ := eval_single_emits clause hk h1 hw ho1 ho2
    exact ⟨clause.segments.get ⟨_, hl⟩, List.get?_eq_get hl,
      isNewlineSeg_iff.mp hkindn, he⟩
  · intro h
    exact eval_single_none clause hk h1 hw h

/-- C1 witness: `[SELECT, newline, target]` is flagged. -/
theorem C1_witness : _eval (mkClause [kwSelect, nlSeg, tgtA]) ≠ .ok none := by
  obtain ⟨n, _, _, he⟩ := (C1_single_delete_iff
    (mkClause [kwSelect, nlSeg, tgtA]) (by rfl) (by decide) (by decide)).1
    (by decide)
  rw [he]
  simp

/-- C2 counterexample: with two newlines between the keyword and the lone
target, the rule deletes the first newline, but re-running the rule on
the edited clause still yields a violation rather than the `NoIssue` the
claim promises. -/
theorem C2_counterexample :
    _eval (mkClause [kwSelect, nlSeg, nlSeg, tgtA]) =
      .ok (some ⟨mkClause [kwSelect, nlSeg, nlSeg, tgtA],
        [LintFix.delete nlSeg]⟩) ∧
    (_get_indexes (mkClause [kwSelect, nlSeg, nlSeg,
      tgtA])).first_new_line_idx = 1 ∧
    _eval ((mkClause [kwSelect, nlSeg, nlSeg, tgtA]).withSegments
      ((mkClause [kwSelect, nlSeg, nlSeg, tgtA]).segments.eraseIdx 1)) ≠
      .ok none := by
  refine ⟨by rfl, by rfl, ?_⟩
  intro h
  rw [show _eval ((mkClause [kwSelect, nlSeg, nlSeg, tgtA]).withSegments
    ((mkClause [kwSelect, nlSeg, nlSeg, tgtA]).segments.eraseIdx 1)) =
    .ok (some ⟨mkClause [kwSelect, nlSeg, tgtA],
      [LintFix.delete nlSeg]⟩) from rfl] at h
  simp at h

/-- C2 (amended): for a single-target clause with no wildcard, a present
keyword, and a newline strictly between the keyword and the target, the
rule deletes the newline at `first_new_line_idx`; provided that deleted
newline is the only newline child at an index strictly below
`first_select_target_idx`, deleting it and re-running the rule yields
`ok none`. -/
theorem C2_delete_and_rescan (clause : Node)
    (hk : clause.kind = "select_clause")
    (h1 : clause.segments.countP isTargetSeg = 1)
    (hw : is_wildcard_scan clause = false)
    (hkw : 0 ≤ (_get_indexes clause).select_idx)
    (ho1 : (_get_indexes clause).select_idx <
      (_get_indexes clause).first_new_line_idx)
    (ho2 : (_get_indexes clause).first_new_line_idx <
      (_get_indexes clause).first_select_target_idx)
    (huniq : ∀ j : Nat, (_get_indexes clause).first_new_line_idx < (j : Int) →
      (j : Int) < (_get_indexes clause).first_select_target_idx →
      isNewlineSeg (clause.segments.getD j emptySeg) = false) :
    (∃ h : ((_get_indexes clause).first_new_line_idx).toNat <
        clause.segments.length,
      _eval clause = .ok (some ⟨clause, [LintFix.delete (clause.segments.get
        ⟨((_get_indexes clause).first_new_line_idx).toNat, h⟩)]⟩)) ∧
    _eval (clause.withSegments (clause.segments.eraseIdx
      ((_get_indexes clause).first_new_line_idx).toNat)) = .ok none := by
  obtain ⟨hl, hkindn, he⟩ := eval_single_emits clause hk h1 hw ho1 ho2
  refine ⟨⟨hl, he⟩, ?_⟩
  have hF0 : 0 ≤ (_get_indexes clause).first_new_line_idx := by omega
  have hnewl : isNewlineSeg (clause.segments.getD
      ((_get_indexes clause).first_new_line_idx).toNat emptySeg) = true := by
    have h0 : 0 ≤ firstIdx isNewlineSeg clause.segments := by
      rw [← get_indexes_fnl]
      exact hF0
    have hx := firstIdx_getD isNewlineSeg clause.segments emptySeg h0
    rw [← get_indexes_fnl] at hx
    exact hx
  apply eval_single_none
  · rw [kind_withSegments]
    exact hk
  · have hsplit : clause.segments.countP isTargetSeg =
        (clause.segments.take
          ((_get_indexes clause).first_new_line_idx).toNat).countP
            isTargetSeg +
        (clause.segments.drop
          (((_get_indexes clause).first_new_line_idx).toNat + 1)).countP
            isTargetSeg := by
      conv_lhs => rw [← List.take_append_drop
        ((_get_indexes clause).first_new_line_idx).toNat clause.segments]
      rw [List.countP_append,
        drop_eq_getD_cons clause.segments emptySeg _ hl,
        List.countP_cons, not_target_of_newline hnewl]
      simp
    rw [segments_withSegments, eraseIdx_eq_take_append_drop,
      List.countP_append]
    omega
  · rw [← Bool.not_eq_true, is_wildcard_scan_iff]
    rintro ⟨t, ht, htgt, w, hwmem, hkind⟩
    rw [segments_withSegments, eraseIdx_eq_take_append_drop] at ht
    have htcs : t ∈ clause.segments := by
      rcases List.mem_append.mp ht with h | h
      · exact List.take_subset _ _ h
      · exact List.drop_subset _ _ h
    have hcontra : is_wildcard_scan clause = true :=
      (is_wildcard_scan_iff clause).mpr ⟨t, htcs, htgt, w, hwmem, hkind⟩
    rw [hw] at hcontra
    cases hcontra
  · intro hcon
    obtain ⟨hc1, hc2⟩ := hcon
    rw [get_indexes_select_idx (clause.withSegments (clause.segments.eraseIdx
        ((_get_indexes clause).first_new_line_idx).toNat)),
      get_indexes_fnl (clause.withSegments (clause.segments.eraseIdx
        ((_get_indexes clause).first_new_line_idx).toNat)),
      segments_withSegments, eraseIdx_eq_take_append_drop,
      get_indexes_fnl clause] at hc1
    rw [get_indexes_fnl (clause.withSegments (clause.segments.eraseIdx
        ((_get_indexes clause).first_new_line_idx).toNat)),
      get_indexes_ft (clause.withSegments (clause.segments.eraseIdx
        ((_get_indexes clause).first_new_line_idx).toNat)),
      segments_withSegments, eraseIdx_eq_take_append_drop,
      get_indexes_fnl clause] at hc2
    have hS0 : 0 ≤ firstIdx isSelectKeyword clause.segments := by
      rw [← get_indexes_select_idx]
      exact hkw
    have hSF : firstIdx isSelectKeyword clause.segments <
        firstIdx isNewlineSeg clause.segments := by
      rw [← get_indexes_select_idx, ← get_indexes_fnl]
      exact ho1
    have hFT : firstIdx isNewlineSeg clause.segments <
        firstIdx isTargetSeg clause.segments := by
      rw [← get_indexes_fnl, ← get_indexes_ft]
      exact ho2
    have huniq2 : ∀ j : Nat, firstIdx isNewlineSeg clause.segments <
        (j : Int) → (j : Int) < firstIdx isTargetSeg clause.segments →
        isNewlineSeg (clause.segments.getD j emptySeg) = false := by
      simp only [← get_indexes_fnl, ← get_indexes_ft]
      exact huniq
    exact rescan_not_ordered clause.segments emptySeg hS0 hSF hFT huniq2
      ⟨hc1, hc2⟩

/-- C2 witness: `[SELECT, newline, target]`, the clause with exactly one
newline before its lone target: the delete applies and the re-scan is
clean. -/
theorem C2_witness :
    _eval ((mkClause [kwSelect, nlSeg, tgtA]).withSegments
      ((mkClause [kwSelect, nlSeg, tgtA]).segments.eraseIdx
        ((_get_indexes (mkClause [kwSelect, nlSeg,
          tgtA])).first_new_line_idx).toNat)) = .ok none :=
  (C2_delete_and_rescan (mkClause [kwSelect, nlSeg, tgtA]) (by rfl)
    (by decide) (by decide) (by decide) (by decide) (by decide)
    (by
      intro j hj1 hj2
      rw [show (_get_indexes (mkClause [kwSelect, nlSeg,
        tgtA])).first_new_line_idx = 1 from rfl] at hj1
      rw [show (_get_indexes (mkClause [kwSelect, nlSeg,
        tgtA])).first_select_target_idx = 2 from rfl] at hj2
      omega)).2

end L036
